import Mathlib

/-!
Verification development for the "my_note" personal note/journal client.
The definitions below shallowly embed the voice-capture state machine and
draft-record reconciliation pipeline of `src/App.tsx` and
`src/services/geminiService.ts`: pure data is translated to Lean structures,
React state updates become explicit state passing, JavaScript truthiness on
strings/numbers is made explicit, and fallible external calls are passed in
as explicit outcome values.
-/

namespace MyNote

/-- Enumeration `RecordType` from `src/types` (`NOTE | BOOK | MOVIE | MUSIC`). -/
inductive RecordType where
  | NOTE
  | BOOK
  | MOVIE
  | MUSIC
deriving DecidableEq, Repr

/-- Structure `MediaMetadata` from `src/types`. -/
structure MediaMetadata where
  title : String
  creator : String
  coverUrl : Option String
  genre : Option String
  region : Option String
  year : Option String
deriving DecidableEq, Repr

/-- Role of a chat message (`'user' | 'model'`). -/
inductive ChatRole where
  | user
  | model
deriving DecidableEq, Repr

/-- Structure `ChatMessage` from `src/types`. -/
structure ChatMessage where
  role : ChatRole
  text : String
  timestamp : Nat
deriving DecidableEq, Repr

/-- Structure `RecordData` from `src/types`: a persisted record. -/
structure RecordData where
  id : String
  type : RecordType
  timestamp : Nat
  content : String
  topic : String
  keywords : List String
  category : String
  mediaMeta : Option MediaMetadata
  originalImage : Option String
  chatHistory : Option (List ChatMessage)
deriving DecidableEq, Repr

/-- The editing draft `Partial<RecordData>`: every field optional. -/
structure DraftRecord where
  id : Option String := none
  type : Option RecordType := none
  timestamp : Option Nat := none
  content : Option String := none
  topic : Option String := none
  keywords : Option (List String) := none
  category : Option String := none
  mediaMeta : Option MediaMetadata := none
  originalImage : Option String := none
  chatHistory : Option (List ChatMessage) := none
deriving DecidableEq, Repr

/-- JavaScript `a || d` on an optional string field: `undefined` and the
empty string are falsy. -/
def jsOrStr (o : Option String) (d : String) : String :=
  match o with
  | none => d
  | some s => if s = "" then d else s

/-- JavaScript `a || d` on an optional numeric field: `undefined` and `0`
are falsy. -/
def jsOrNat (o : Option Nat) (d : Nat) : Nat :=
  match o with
  | none => d
  | some n => if n = 0 then d else n

/-- JavaScript truthiness of an optional string (`undefined` and `""` are
falsy). -/
def jsTruthy (o : Option String) : Bool :=
  match o with
  | none => false
  | some s => !(s = "")

/-! ### Record Store Sync (`saveCurrentRecord` merge step, `App.tsx` 233-243) -/

/-- The insert-vs-update merge of `saveCurrentRecord`:
`records.findIndex(r => r.id === finalRecord.id)`; on a hit the record is
replaced at that index, otherwise it is appended. -/
def commit (finalRecord : RecordData) (records : List RecordData) : List RecordData :=
  match records.findIdx? (fun r => r.id == finalRecord.id) with
  | some existingIndex => records.set existingIndex finalRecord
  | none => records ++ [finalRecord]

/-! ### Storage (`loadRecords` / `saveRecordsToStorage`, `App.tsx` 15-24) -/

/-- The `localStorage` blob under the `muse_records` key: absent, corrupt,
or a serialized record list. -/
inductive StorageBlob where
  | absent
  | corrupt
  | stored (records : List RecordData)
deriving DecidableEq, Repr

/-- Function `saveRecordsToStorage`: one whole-list write of the serialized array. -/
def saveRecordsToStorage (records : List RecordData) : StorageBlob :=
  StorageBlob.stored records

/-- Function `loadRecords`: parse the stored blob, returning `[]` when the key is
absent or parsing throws. -/
def loadRecords (blob : StorageBlob) : List RecordData :=
  match blob with
  | StorageBlob.absent => []
  | StorageBlob.corrupt => []
  | StorageBlob.stored records => records

/-! ### JavaScript string trim

`String.prototype.trim()` removes leading and trailing whitespace; it is
embedded here over the character list so it evaluates in the kernel. -/

/-- JavaScript `s.trim()`. -/
def jsTrim (s : String) : String :=
  ⟨((s.data.dropWhile Char.isWhitespace).reverse.dropWhile Char.isWhitespace).reverse⟩

/-! ### `saveCurrentRecord` finalize step (`App.tsx` 218-231)

The object literal fills each still-missing field with its default using
JavaScript `||` (so an empty string also takes the default), builds the
topic from the first 12 characters of the content when the content is
truthy, and attaches the current chat transcript.  `Date.now()` values are
passed in explicitly as `nowId` / `nowTs`. -/

/-- The `finalRecord` object literal of `saveCurrentRecord`. -/
def finalize (draft : DraftRecord) (chatMessages : List ChatMessage)
    (nowId : String) (nowTs : Nat) : RecordData :=
  { id := jsOrStr draft.id nowId
    timestamp := jsOrNat draft.timestamp nowTs
    type := draft.type.getD RecordType.NOTE
    content := jsOrStr draft.content ""
    topic := jsOrStr draft.topic
      (if jsTruthy draft.content then (draft.content.getD "").take 12 else "无标题")
    keywords := draft.keywords.getD []
    category := jsOrStr draft.category "生活"
    mediaMeta := draft.mediaMeta
    originalImage := draft.originalImage
    chatHistory := some chatMessages }

/-! ### Transcript Accumulator (`startVoiceRecognition.onresult`, `App.tsx` 343-360)

A recognition event carries, for indices `[resultIndex, results.length)`,
a list of entries each flagged final or interim with a transcript string.
The handler concatenates the event's final entries into `final` and its
interim entries into `interim`, appends `final` to the confirmed buffer
`inputTextRef.current` (guarded by JavaScript truthiness of `final`), and
emits `inputTextRef.current + interim`. -/

/-- One entry of a recognition event's delta slice
(`event.results[i].isFinal`, `event.results[i][0].transcript`). -/
structure RecEntry where
  isFinal : Bool
  transcript : String
deriving DecidableEq, Repr

/-- The `for` loop of `onresult`: split the event's delta entries into the
concatenated final and interim texts, in index order. -/
def collectEvent (entries : List RecEntry) : String × String :=
  entries.foldl
    (fun acc e =>
      if e.isFinal then (acc.1 ++ e.transcript, acc.2) else (acc.1, acc.2 ++ e.transcript))
    ("", "")

/-- The tail of `onresult`: update the confirmed buffer (`if (final)
inputTextRef.current += final`) and emit the effective transcript
`inputTextRef.current + interim`.  Returns (new confirmed buffer, emitted
transcript). -/
def onResultStep (confirmed : String) (entries : List RecEntry) : String × String :=
  let fi := collectEvent entries
  let confirmed' := if fi.1 = "" then confirmed else confirmed ++ fi.1
  (confirmed', confirmed' ++ fi.2)

/-- Process a sequence of recognition events in delivery order starting
from the session-start reset (`inputTextRef.current = ''`); the second
component is the transcript emitted by the most recent event. -/
def runEvents (events : List (List RecEntry)) : String × String :=
  events.foldl (fun s ev => onResultStep s.1 ev) ("", "")

/-- All final text of a list of events, in delivery order. -/
def allFinalText (events : List (List RecEntry)) : String :=
  String.join ((events.flatMap (fun ev => ev.filter (fun e => e.isFinal))).map
    (fun e => e.transcript))

/-- The interim text of a single event. -/
def interimText (ev : List RecEntry) : String :=
  String.join ((ev.filter (fun e => !e.isFinal)).map (fun e => e.transcript))

/-! ### AI analysis results (`AnalysisResult` from `src/types`) and the
reanalysis merge of `handleAnalyze` (`App.tsx` 131-150) -/

/-- Field `noteData` of an `AnalysisResult`. -/
structure NoteData where
  content : String
  topic : String
  keywords : List String
  category : String
deriving DecidableEq, Repr

/-- Field `mediaMeta` of an `AnalysisResult`. -/
structure AnalysisMediaMeta where
  title : String
  creator : String
  genre : String
  region : Option String
deriving DecidableEq, Repr

/-- Field `detectedType` of an `AnalysisResult`. -/
inductive DetectedType where
  | BOOK
  | MOVIE
  | MUSIC
  | OTHER
deriving DecidableEq, Repr

/-- Structure `AnalysisResult` from `src/types`. -/
structure AnalysisResult where
  isMedia : Bool
  detectedType : DetectedType
  mediaMeta : Option AnalysisMediaMeta
  noteData : NoteData
deriving DecidableEq, Repr

/-- The `initialKeywords` pushes of `handleAnalyze`: one fixed seed label
per detected media kind. -/
def initialKeywords (result : AnalysisResult) : List String :=
  (if result.detectedType = DetectedType.BOOK then ["书籍"] else []) ++
  (if result.detectedType = DetectedType.MOVIE then ["电影"] else []) ++
  (if result.detectedType = DetectedType.MUSIC then ["音乐"] else [])

/-- The title pick `result.isMedia ? (result.mediaMeta?.title || result.noteData.topic)
: result.noteData.topic`. -/
def analysisTitle (result : AnalysisResult) : String :=
  if result.isMedia then
    jsOrStr (result.mediaMeta.map (fun m => m.title)) result.noteData.topic
  else result.noteData.topic

/-- The `isReAnalysis && editingRecord` branch of `handleAnalyze`: spread
the existing draft and replace topic, content and category by the new
analysis, setting `keywords` to the existing keywords followed by the seed
keywords. -/
def mergeReanalysis (draft : DraftRecord) (result : AnalysisResult) : DraftRecord :=
  { draft with
    topic := some (analysisTitle result)
    content := some result.noteData.content
    category := some result.noteData.category
    keywords := some (draft.keywords.getD [] ++ initialKeywords result) }

/-! ### Application state and event handlers

One state record collects the React state variables and the mutable refs
that the embedded handlers read and write.  Mutable refs
(`inputTextRef`, `fullTranscriptRef`, `initialInlineTextRef`,
`inlineTargetRef`) appear as plain fields; handlers are state
transformers, with `Date.now()` passed in explicitly. -/

/-- The `view` state variable. -/
inductive AppView where
  | HOME
  | LIST
  | SEARCH
  | EDIT_RECORD
deriving DecidableEq, Repr

/-- Target of an inline dictation session. -/
inductive InlineTarget where
  | EDIT_CONTENT
  | CHAT_INPUT
deriving DecidableEq, Repr

/-- Outcome of a fallible external service call. -/
inductive Outcome (α : Type) where
  | ok (value : α)
  | failure
deriving DecidableEq, Repr

/-- The app state touched by the embedded handlers. -/
structure AppState where
  view : AppView
  records : List RecordData
  storage : StorageBlob
  editingRecord : Option DraftRecord
  suggestedKeywords : List String
  keywordInput : String
  chatMessages : List ChatMessage
  chatInput : String
  inputText : String
  inputTextRef : String
  fullTranscript : String
  initialInlineText : String
  isListening : Bool
  isListeningRef : Bool
  isInlineListening : Bool
  inlineTarget : Option InlineTarget
deriving DecidableEq, Repr

/-- An idle state over a given record list: nothing being edited, no
session active. -/
def idleState (records : List RecordData) : AppState :=
  { view := AppView.HOME, records := records,
    storage := saveRecordsToStorage records, editingRecord := none,
    suggestedKeywords := [], keywordInput := "", chatMessages := [],
    chatInput := "", inputText := "", inputTextRef := "",
    fullTranscript := "", initialInlineText := "", isListening := false,
    isListeningRef := false, isInlineListening := false, inlineTarget := none }

/-! ### Proofreading (`proofreadText`, `geminiService.ts` 134-156) -/

/-- Function `proofreadText`: on a successful call returns
`response.text?.trim() || text`; the `catch` arm returns the original
text.  The service response (`response.text`, possibly absent) or the
failure is passed in as the `Outcome`. -/
def proofreadText (text : String) (response : Outcome (Option String)) : String :=
  match response with
  | Outcome.failure => text
  | Outcome.ok rt => jsOrStr (rt.map jsTrim) text

/-! ### Primary dictation session (`startListening` /
`stopListeningAndProcess`, `App.tsx` 372-444) -/

/-- Handler `startListening`: no-op while already listening, otherwise resets the
transcript buffers and raises the listening flags. -/
def startListening (s : AppState) : AppState :=
  if s.isListeningRef then s
  else
    { s with
      inputText := ""
      inputTextRef := ""
      fullTranscript := ""
      isListening := true
      isListeningRef := true }

/-- The `onEnd` callback registered for the primary session: its body is
empty (`// handled manually`). -/
def primaryOnEnd (s : AppState) : AppState := s

/-- The immediate part of `stopListeningAndProcess`, before the grace
delay: clear the listening flags and release the recognizer. -/
def stopListeningImmediate (s : AppState) : AppState :=
  if s.isListeningRef then { s with isListening := false, isListeningRef := false }
  else s

/-- The deferred body of `stopListeningAndProcess` (the `setTimeout`
callback): read `fullTranscriptRef`, bail out on a blank transcript,
otherwise proofread it and build the new draft, moving to the edit view. -/
def processStoppedTranscript (s : AppState) (response : Outcome (Option String))
    (nowId : String) (nowTs : Nat) : AppState :=
  let text := s.fullTranscript
  if jsTrim text = "" then s
  else
    let finalContent := proofreadText text response
    { s with
      editingRecord := some
        { id := some nowId, timestamp := some nowTs,
          type := some RecordType.NOTE,
          content := some finalContent,
          topic := some (finalContent.take 10 ++
            (if 10 < finalContent.length then "..." else "")),
          keywords := some [], category := some "生活",
          mediaMeta := none, originalImage := none,
          chatHistory := some [] }
      chatMessages := [], suggestedKeywords := [],
      view := AppView.EDIT_RECORD, inputText := "", fullTranscript := "" }

/-! ### Inline dictation session (`handleInlineVoiceStart` /
`handleInlineVoiceEnd`, `App.tsx` 446-494) -/

/-- Handler `handleInlineVoiceStart`: no-op when an inline session is active;
otherwise captures the target's current text as a prefix, resets the
accumulator and raises the inline flags.  The returned `Bool` is the value
of `isInlineListening` captured by the `onEnd` closure registered with the
recognizer (the render-time value, not a live reference). -/
def handleInlineVoiceStart (s : AppState) (target : InlineTarget) : AppState × Bool :=
  if s.isInlineListening then (s, s.isInlineListening)
  else
    let initial := match target with
      | InlineTarget.EDIT_CONTENT => jsOrStr (s.editingRecord.bind (fun d => d.content)) ""
      | InlineTarget.CHAT_INPUT => s.chatInput
    ({ s with
        initialInlineText := initial
        inputTextRef := ""
        inlineTarget := some target
        isInlineListening := true },
      s.isInlineListening)

/-- The `onEnd` callback registered for an inline session: it clears the
inline flags only when the `isInlineListening` value captured at
registration time was `true`. -/
def inlineOnEnd (capturedIsInlineListening : Bool) (s : AppState) : AppState :=
  if capturedIsInlineListening then
    { s with isInlineListening := false, inlineTarget := none }
  else s

/-- Handler `handleInlineVoiceEnd`: explicit user stop of an inline session. -/
def handleInlineVoiceEnd (s : AppState) : AppState :=
  if s.isInlineListening then
    { s with isInlineListening := false, inlineTarget := none }
  else s

/-! ### Keyword editing (`toggleKeyword` / `handleAddKeyword`,
`App.tsx` 497-526)

Each handler returns the new state together with a flag recording whether
the keyword-cap `alert` fired. -/

/-- Handler `toggleKeyword`: remove an already-present keyword, reject an addition
at the 5-keyword cap with an alert, otherwise append. -/
def toggleKeyword (s : AppState) (kw : String) : AppState × Bool :=
  match s.editingRecord with
  | none => (s, false)
  | some d =>
    let current := d.keywords.getD []
    if current.contains kw then
      ({ s with
          editingRecord :=
            some { d with keywords := some (current.filter (fun k => !(k == kw))) } },
        false)
    else if 5 ≤ current.length then (s, true)
    else
      ({ s with
          editingRecord := some { d with keywords := some (current ++ [kw]) } },
        false)

/-- Handler `handleAddKeyword`: add the trimmed custom keyword, rejecting with an
alert when 5 keywords are present and the keyword is new, and skipping the
append (while clearing the input) when it is already present. -/
def handleAddKeyword (s : AppState) : AppState × Bool :=
  match s.editingRecord with
  | none => (s, false)
  | some d =>
    if jsTrim s.keywordInput = "" then (s, false)
    else
      let newKw := jsTrim s.keywordInput
      let currentKw := d.keywords.getD []
      if 5 ≤ currentKw.length ∧ currentKw.contains newKw = false then (s, true)
      else if currentKw.contains newKw = false then
        ({ s with
            editingRecord := some { d with keywords := some (currentKw ++ [newKw]) }
            keywordInput := "" },
          false)
      else ({ s with keywordInput := "" }, false)

/-! ### Saving and navigation (`saveCurrentRecord`, `App.tsx` 218-250;
edit-view header, `App.tsx` 814-823) -/

/-- Handler `saveCurrentRecord`: finalize the draft, merge it into the record
list, write the whole list to storage, clear the draft and the transcript
buffers, and return to the home view. -/
def saveCurrentRecord (s : AppState) (nowId : String) (nowTs : Nat) : AppState :=
  match s.editingRecord with
  | none => s
  | some d =>
    let finalRecord := finalize d s.chatMessages nowId nowTs
    let newRecords := commit finalRecord s.records
    { s with
      records := newRecords
      storage := saveRecordsToStorage newRecords
      editingRecord := none
      inputText := ""
      inputTextRef := ""
      fullTranscript := ""
      view := AppView.HOME }

/-- The edit-view back control (`ArrowLeft` header button): its `onClick`
is `() => saveCurrentRecord()`. -/
def handleBackFromEdit (s : AppState) (nowId : String) (nowTs : Nat) : AppState :=
  saveCurrentRecord s nowId nowTs

/-- A home-view idle state holding the ten-character dictated transcript
of the spec's scenario. -/
def tenCharStopState : AppState :=
  { idleState [] with fullTranscript := "去超市买了苹果和牛奶" }

/-! ## Theorems -/

/-- Folding string concatenation from any start prepends the start to the
join of the list. -/
theorem string_foldl_append (l : List String) (a : String) :
    l.foldl (fun r t => r ++ t) a = a ++ String.join l := by
  induction l generalizing a with
  | nil => simp [String.join]
  | cons s rest ih =>
      have hcons : String.join (s :: rest) = rest.foldl (fun r t => r ++ t) s := rfl
      rw [List.foldl_cons, ih, hcons, ih, String.append_assoc]

/-- Unfolding `String.join` on a cons. -/
theorem string_join_cons (s : String) (l : List String) :
    String.join (s :: l) = s ++ String.join l := by
  have hcons : String.join (s :: l) = l.foldl (fun r t => r ++ t) s := rfl
  rw [hcons, string_foldl_append]

/-- Joining distributes over list append. -/
theorem string_join_append (l1 l2 : List String) :
    String.join (l1 ++ l2) = String.join l1 ++ String.join l2 := by
  induction l1 with
  | nil => simp [String.join]
  | cons s rest ih =>
      rw [List.cons_append, string_join_cons, ih, string_join_cons, String.append_assoc]

/-- The `collectEvent` fold computes exactly filtered-and-joined final and
interim texts, relative to arbitrary starting accumulators. -/
theorem collectEvent_foldl (entries : List RecEntry) (a b : String) :
    entries.foldl
      (fun acc e =>
        if e.isFinal then (acc.1 ++ e.transcript, acc.2) else (acc.1, acc.2 ++ e.transcript))
      (a, b) =
    (a ++ String.join ((entries.filter (fun e => e.isFinal)).map (fun e => e.transcript)),
     b ++ interimText entries) := by
  induction entries generalizing a b with
  | nil => simp [interimText, String.join]
  | cons e rest ih =>
      by_cases hf : e.isFinal
      · simp [hf, ih, interimText, string_join_cons, String.append_assoc]
      · simp [hf, ih, interimText, string_join_cons, String.append_assoc]

/-- The confirmed-buffer update of one event: the truthiness guard on
`final` is equivalent to a plain append of the event's final text. -/
theorem onResultStep_fst (confirmed : String) (ev : List RecEntry) :
    (onResultStep confirmed ev).1 =
      confirmed ++ String.join ((ev.filter (fun e => e.isFinal)).map (fun e => e.transcript)) := by
  simp only [onResultStep, collectEvent, collectEvent_foldl]
  by_cases h0 : String.join ((ev.filter (fun e => e.isFinal)).map (fun e => e.transcript)) = ""
  · simp [h0]
  · simp [h0]

/-- The emitted transcript of one event is the updated confirmed buffer
followed by the event's interim text. -/
theorem onResultStep_snd (confirmed : String) (ev : List RecEntry) :
    (onResultStep confirmed ev).2 = (onResultStep confirmed ev).1 ++ interimText ev := by
  simp only [onResultStep, collectEvent, collectEvent_foldl]
  by_cases h0 : String.join ((ev.filter (fun e => e.isFinal)).map (fun e => e.transcript)) = ""
  · simp [h0]
  · simp [h0]

/-- The pair-valued event fold only ever reads the confirmed component of
its accumulator. -/
theorem runEvents_fold_fst (events : List (List RecEntry)) (c : String) (x : String) :
    (events.foldl (fun s ev => onResultStep s.1 ev) (c, x)).1 =
      events.foldl (fun conf ev => (onResultStep conf ev).1) c := by
  induction events generalizing c x with
  | nil => rfl
  | cons ev rest ih => simpa using ih (onResultStep c ev).1 (onResultStep c ev).2

/-- Splitting the total final text at the first event. -/
theorem allFinalText_cons (ev : List RecEntry) (events : List (List RecEntry)) :
    allFinalText (ev :: events) =
      String.join ((ev.filter (fun e => e.isFinal)).map (fun e => e.transcript)) ++
        allFinalText events := by
  simp [allFinalText, string_join_append]

/-- Folding the confirmed buffer from any start prepends the start to the
total final text. -/
theorem confirmed_fold_eq (events : List (List RecEntry)) (c : String) :
    events.foldl (fun conf ev => (onResultStep conf ev).1) c = c ++ allFinalText events := by
  induction events generalizing c with
  | nil => simp [allFinalText, String.join]
  | cons ev rest ih =>
      rw [List.foldl_cons, ih, onResultStep_fst, allFinalText_cons, String.append_assoc]

/-- After any event sequence, the confirmed buffer is exactly the final
text of all events so far. -/
theorem runEvents_confirmed (events : List (List RecEntry)) :
    (runEvents events).1 = allFinalText events := by
  simpa using (runEvents_fold_fst events "" "").trans (confirmed_fold_eq events "")

/-- C1: for every sequence of recognition events processed in delivery
order, the effective transcript emitted after each event equals the
concatenation of the texts of all entries marked final seen so far (in
order) followed by the interim entries of the most recent event only — so
final text is never omitted and superseded interim text never reappears. -/
theorem effective_transcript_eq (events : List (List RecEntry)) (ev : List RecEntry) :
    (runEvents (events ++ [ev])).2 = allFinalText (events ++ [ev]) ++ interimText ev := by
  have h1 : runEvents (events ++ [ev]) = onResultStep (runEvents events).1 ev := by
    simp [runEvents, List.foldl_append]
  have h2 : allFinalText (events ++ [ev]) =
      allFinalText events ++
        String.join ((ev.filter (fun e => e.isFinal)).map (fun e => e.transcript)) := by
    simp [allFinalText, string_join_append]
  rw [h1, onResultStep_snd, onResultStep_fst, runEvents_confirmed, h2]

/-- C3: reanalysis is keyword-additive — the merged draft's keywords are,
as a set, the union of the draft's previous keywords and the type-derived
seed keywords, so every keyword present before the call is still present
after it. -/
theorem reanalysis_keywords_union (draft : DraftRecord) (result : AnalysisResult) :
    (∀ k, k ∈ (mergeReanalysis draft result).keywords.getD [] ↔
      (k ∈ draft.keywords.getD [] ∨ k ∈ initialKeywords result)) ∧
    (∀ k ∈ draft.keywords.getD [], k ∈ (mergeReanalysis draft result).keywords.getD []) := by
  constructor
  · intro k
    simp [mergeReanalysis, List.mem_append]
  · intro k hk
    simp [mergeReanalysis, List.mem_append, hk]

/-- Witness for `reanalysis_keywords_union`: a user-added keyword survives
a book reanalysis, which also contributes its seed label. -/
theorem reanalysis_keywords_union_witness :
    "旅行" ∈ (mergeReanalysis { keywords := some ["旅行"] }
      { isMedia := true, detectedType := DetectedType.BOOK,
        mediaMeta := some { title := "沙丘", creator := "赫伯特", genre := "科幻", region := none },
        noteData := { content := "c", topic := "t", keywords := [], category := "其他" } }).keywords.getD []
    ∧ "书籍" ∈ (mergeReanalysis { keywords := some ["旅行"] }
      { isMedia := true, detectedType := DetectedType.BOOK,
        mediaMeta := some { title := "沙丘", creator := "赫伯特", genre := "科幻", region := none },
        noteData := { content := "c", topic := "t", keywords := [], category := "其他" } }).keywords.getD [] := by
  constructor
  · exact (reanalysis_keywords_union { keywords := some ["旅行"] }
      { isMedia := true, detectedType := DetectedType.BOOK,
        mediaMeta := some { title := "沙丘", creator := "赫伯特", genre := "科幻", region := none },
        noteData := { content := "c", topic := "t", keywords := [], category := "其他" } }).2
      "旅行" (by decide)
  · exact ((reanalysis_keywords_union { keywords := some ["旅行"] }
      { isMedia := true, detectedType := DetectedType.BOOK,
        mediaMeta := some { title := "沙丘", creator := "赫伯特", genre := "科幻", region := none },
        noteData := { content := "c", topic := "t", keywords := [], category := "其他" } }).1
      "书籍").mpr (Or.inr (by decide))

/-- C2: committing a record with an already-stored id replaces the first
match in place — same index, same length, every other position untouched —
and committing a novel id appends at the end, growing the list by one. -/
theorem commit_replaces_or_appends (rec : RecordData) (records : List RecordData) :
    ((∃ r ∈ records, r.id = rec.id) →
      ∃ i r0, records[i]? = some r0 ∧ r0.id = rec.id ∧
        (∀ j r', j < i → records[j]? = some r' → r'.id ≠ rec.id) ∧
        commit rec records = records.set i rec ∧
        (commit rec records).length = records.length ∧
        (commit rec records)[i]? = some rec ∧
        (∀ j, j ≠ i → (commit rec records)[j]? = records[j]?)) ∧
    ((∀ r ∈ records, r.id ≠ rec.id) →
      commit rec records = records ++ [rec] ∧
      (commit rec records).length = records.length + 1) := by
  constructor
  · rintro ⟨r, hr, hid⟩
    set p : RecordData → Bool := fun x => x.id == rec.id with hp
    have hex : ∃ x ∈ records, p x = true := ⟨r, hr, by simp [hp, hid]⟩
    have hlt : records.findIdx p < records.length :=
      List.findIdx_lt_length_of_exists hex
    have hfind : records.findIdx? p = some (records.findIdx p) :=
      List.findIdx?_eq_some_iff_findIdx_eq.mpr ⟨hlt, rfl⟩
    refine ⟨records.findIdx p, records[records.findIdx p], ?_, ?_, ?_, ?_, ?_, ?_, ?_⟩
    · exact (List.getElem?_eq_some_iff).mpr ⟨hlt, rfl⟩
    · have := @List.findIdx_getElem _ p records hlt
      simpa [hp] using this
    · intro j r' hj hget hcontra
      have hjlt : j < records.length := (List.getElem?_eq_some_iff.mp hget).1
      have : p records[j] = false := List.not_of_lt_findIdx hj
      have hr' : records[j] = r' := by
        have := (List.getElem?_eq_some_iff.mp hget).2
        simpa using this
      rw [hr'] at this
      simp [hp, hcontra] at this
    · simp [commit, hfind]
    · simp [commit, hfind]
    · simp [commit, hfind, List.getElem?_set, hlt]
    · intro j hj
      simp [commit, hfind, List.getElem?_set, Ne.symm hj]
  · intro hall
    have hnone : records.findIdx? (fun x => x.id == rec.id) = none := by
      rw [List.findIdx?_eq_none_iff]
      intro x hx
      simp [hall x hx]
    constructor
    · simp [commit, hnone]
    · simp [commit, hnone]

/-- Witness for `commit_replaces_or_appends`: one two-record store, one
replacement hit at index 0 and one append of a fresh id. -/
theorem commit_replaces_or_appends_witness :
    (let ra : RecordData :=
      { id := "1", type := RecordType.NOTE, timestamp := 5, content := "a",
        topic := "t", keywords := [], category := "生活",
        mediaMeta := none, originalImage := none, chatHistory := none }
    let rb : RecordData := { ra with id := "2", content := "b" }
    let rnew : RecordData := { ra with id := "1", content := "c" }
    commit rnew [ra, rb] = [rnew, rb]) ∧
    (let ra : RecordData :=
      { id := "1", type := RecordType.NOTE, timestamp := 5, content := "a",
        topic := "t", keywords := [], category := "生活",
        mediaMeta := none, originalImage := none, chatHistory := none }
    let rb : RecordData := { ra with id := "2", content := "b" }
    let rnew : RecordData := { ra with id := "3", content := "c" }
    commit rnew [ra, rb] = [ra, rb, rnew]) := by
  constructor
  · have h := (commit_replaces_or_appends
      { id := "1", type := RecordType.NOTE, timestamp := 5, content := "c",
        topic := "t", keywords := [], category := "生活",
        mediaMeta := none, originalImage := none, chatHistory := none }
      [{ id := "1", type := RecordType.NOTE, timestamp := 5, content := "a",
         topic := "t", keywords := [], category := "生活",
         mediaMeta := none, originalImage := none, chatHistory := none },
       { id := "2", type := RecordType.NOTE, timestamp := 5, content := "b",
         topic := "t", keywords := [], category := "生活",
         mediaMeta := none, originalImage := none, chatHistory := none }]).1
    obtain ⟨i, r0, hget, hid, hfirst, heq, -⟩ := h (by
      refine ⟨_, List.mem_cons_self _ _, rfl⟩)
    have hi : i = 0 := by
      by_contra hne
      have h0 : (0 : Nat) < i := Nat.pos_of_ne_zero hne
      exact hfirst 0 _ h0 rfl rfl
    subst hi
    simpa using heq
  · have h := (commit_replaces_or_appends
      { id := "3", type := RecordType.NOTE, timestamp := 5, content := "c",
        topic := "t", keywords := [], category := "生活",
        mediaMeta := none, originalImage := none, chatHistory := none }
      [{ id := "1", type := RecordType.NOTE, timestamp := 5, content := "a",
         topic := "t", keywords := [], category := "生活",
         mediaMeta := none, originalImage := none, chatHistory := none },
       { id := "2", type := RecordType.NOTE, timestamp := 5, content := "b",
         topic := "t", keywords := [], category := "生活",
         mediaMeta := none, originalImage := none, chatHistory := none }]).2
    have hres := h (by decide)
    simpa using hres.1

/-- C8: the keyword invariant (at most 5 entries, no duplicates) is broken
by the reanalysis merge: a draft already holding 5 keywords gains a 6th
seed keyword, the 6 keywords survive `finalize` into the saved record, and
a draft already holding the seed label ends up with a duplicate entry. -/
theorem reanalysis_exceeds_keyword_cap :
    ((mergeReanalysis { keywords := some ["一", "二", "三", "四", "五"] }
      { isMedia := true, detectedType := DetectedType.BOOK,
        mediaMeta := some { title := "沙丘", creator := "赫伯特", genre := "科幻", region := none },
        noteData := { content := "c", topic := "t", keywords := [], category := "其他" } }).keywords.getD []).length = 6 ∧
    (finalize (mergeReanalysis { keywords := some ["一", "二", "三", "四", "五"] }
      { isMedia := true, detectedType := DetectedType.BOOK,
        mediaMeta := some { title := "沙丘", creator := "赫伯特", genre := "科幻", region := none },
        noteData := { content := "c", topic := "t", keywords := [], category := "其他" } })
      [] "1" 1).keywords.length = 6 ∧
    ¬ ((mergeReanalysis { keywords := some ["书籍"] }
      { isMedia := true, detectedType := DetectedType.BOOK,
        mediaMeta := some { title := "沙丘", creator := "赫伯特", genre := "科幻", region := none },
        noteData := { content := "c", topic := "t", keywords := [], category := "其他" } }).keywords.getD []).Nodup := by
  refine ⟨by decide, by decide, by decide⟩

/-- Defaulting `jsOrStr` with the empty default is `Option.getD`. -/
theorem jsOrStr_empty (o : Option String) : jsOrStr o "" = o.getD "" := by
  cases o with
  | none => rfl
  | some s =>
      by_cases h : s = ""
      · simp [jsOrStr, h]
      · simp [jsOrStr, h]

/-- A committed record is a member of the committed list. -/
theorem mem_commit_self (rec : RecordData) (records : List RecordData) :
    rec ∈ commit rec records := by
  unfold commit
  cases hf : records.findIdx? (fun r => r.id == rec.id) with
  | none => simp
  | some i =>
      have hi : i < records.length := (List.findIdx?_eq_some_iff_findIdx_eq.mp hf).1
      have hget : (records.set i rec)[i]? = some rec := by
        simp [List.getElem?_set, hi]
      exact List.getElem?_mem hget

/-- C4: finalize fills each missing required field with its default —
topic becomes the first 12 characters of the content when the content is
non-empty and the literal placeholder otherwise, category becomes the
fixed default label, keywords becomes the empty list, type becomes Note —
attaches the current chat transcript as chatHistory, and the record
obtained by finalize, commit, then load is a total record found
field-for-field intact in the loaded list. -/
theorem finalize_defaults_roundtrip (draft : DraftRecord) (cm : List ChatMessage)
    (nowId : String) (nowTs : Nat) (records : List RecordData) :
    (jsTruthy draft.topic = false → draft.content.getD "" ≠ "" →
      (finalize draft cm nowId nowTs).topic =
        ((finalize draft cm nowId nowTs).content).take 12) ∧
    (jsTruthy draft.topic = false → draft.content.getD "" = "" →
      (finalize draft cm nowId nowTs).topic = "无标题") ∧
    (jsTruthy draft.category = false → (finalize draft cm nowId nowTs).category = "生活") ∧
    (draft.keywords = none → (finalize draft cm nowId nowTs).keywords = []) ∧
    (draft.type = none → (finalize draft cm nowId nowTs).type = RecordType.NOTE) ∧
    (finalize draft cm nowId nowTs).chatHistory = some cm ∧
    loadRecords (saveRecordsToStorage (commit (finalize draft cm nowId nowTs) records)) =
      commit (finalize draft cm nowId nowTs) records ∧
    finalize draft cm nowId nowTs ∈
      loadRecords (saveRecordsToStorage (commit (finalize draft cm nowId nowTs) records)) := by
  have htruthy : jsTruthy draft.content = true ↔ draft.content.getD "" ≠ "" := by
    cases draft.content with
    | none => simp [jsTruthy]
    | some c => by_cases h : c = "" <;> simp [jsTruthy, h]
  have htop : jsTruthy draft.topic = false →
      (finalize draft cm nowId nowTs).topic =
        (if jsTruthy draft.content then (draft.content.getD "").take 12 else "无标题") := by
    intro h
    cases hdt : draft.topic with
    | none => simp [finalize, jsOrStr, hdt]
    | some t =>
        have ht : t = "" := by
          by_contra hne
          simp [jsTruthy, hdt, hne] at h
        simp [finalize, jsOrStr, hdt, ht]
  refine ⟨?_, ?_, ?_, ?_, ?_, ?_, ?_, ?_⟩
  · intro h hcontent
    rw [htop h, if_pos (htruthy.mpr hcontent)]
    have : (finalize draft cm nowId nowTs).content = draft.content.getD "" := by
      simp [finalize, jsOrStr_empty]
    rw [this]
  · intro h hcontent
    rw [htop h]
    have : jsTruthy draft.content = false := by
      by_contra hne
      have := htruthy.mp (by revert hne; cases jsTruthy draft.content <;> simp)
      exact this hcontent
    simp [this]
  · intro h
    cases hdc : draft.category with
    | none => simp [finalize, jsOrStr, hdc]
    | some c =>
        have hc : c = "" := by
          by_contra hne
          simp [jsTruthy, hdc, hne] at h
        simp [finalize, jsOrStr, hdc, hc]
  · intro h
    simp [finalize, h]
  · intro h
    simp [finalize, h]
  · rfl
  · rfl
  · exact mem_commit_self _ _

/-- Witness for `finalize_defaults_roundtrip`: the empty draft (zero
optional fields set) saved over an empty store. -/
theorem finalize_defaults_roundtrip_witness :
    (finalize {} [] "7" 3).topic = "无标题" ∧
    (finalize {} [] "7" 3).category = "生活" ∧
    (finalize {} [] "7" 3).keywords = [] ∧
    (finalize {} [] "7" 3).type = RecordType.NOTE ∧
    (finalize {} [] "7" 3).chatHistory = some [] ∧
    loadRecords (saveRecordsToStorage (commit (finalize {} [] "7" 3) [])) =
      commit (finalize {} [] "7" 3) [] ∧
    finalize {} [] "7" 3 ∈
      loadRecords (saveRecordsToStorage (commit (finalize {} [] "7" 3) [])) := by
  have h := finalize_defaults_roundtrip {} [] "7" 3 []
  exact ⟨h.2.1 rfl rfl, h.2.2.1 rfl, h.2.2.2.1 rfl, h.2.2.2.2.1 rfl,
    h.2.2.2.2.2.1, h.2.2.2.2.2.2.1, h.2.2.2.2.2.2.2⟩

/-- C5 counterexample: stopping a primary dictation session whose
transcript is exactly ten characters long (the spec's own scenario input)
with a failing proofread call yields a draft whose topic is the bare
content with no ellipsis marker — not the claimed first-10-characters
plus ellipsis. -/
theorem stop_topic_missing_ellipsis :
    ((processStoppedTranscript tenCharStopState Outcome.failure "1" 1).editingRecord.bind
      (fun d => d.content)) = some "去超市买了苹果和牛奶" ∧
    ((processStoppedTranscript tenCharStopState Outcome.failure "1" 1).editingRecord.bind
      (fun d => d.topic)) = some "去超市买了苹果和牛奶" ∧
    ((processStoppedTranscript tenCharStopState Outcome.failure "1" 1).editingRecord.bind
      (fun d => d.topic)) ≠ some ("去超市买了苹果和牛奶".take 10 ++ "...") := by
  refine ⟨by decide, by decide, by decide⟩

/-- C5 (amended): when a stopped primary session is processed, a blank
(whitespace-only) transcript leaves the state entirely unchanged, and a
non-blank transcript creates a draft whose content is the proofread
transcript and whose topic is the first 10 characters of the content with
the ellipsis marker appended exactly when the content exceeds 10
characters, moving the UI to the edit view. -/
theorem stop_process_spec (s : AppState) (response : Outcome (Option String))
    (nowId : String) (nowTs : Nat) :
    (jsTrim s.fullTranscript = "" →
      processStoppedTranscript s response nowId nowTs = s) ∧
    (jsTrim s.fullTranscript ≠ "" →
      ((processStoppedTranscript s response nowId nowTs).editingRecord.bind
          (fun d => d.content)) = some (proofreadText s.fullTranscript response) ∧
      ((processStoppedTranscript s response nowId nowTs).editingRecord.bind
          (fun d => d.topic)) =
        some ((proofreadText s.fullTranscript response).take 10 ++
          (if 10 < (proofreadText s.fullTranscript response).length then "..." else "")) ∧
      (processStoppedTranscript s response nowId nowTs).view = AppView.EDIT_RECORD) := by
  constructor
  · intro h
    simp [processStoppedTranscript, h]
  · intro h
    refine ⟨?_, ?_, ?_⟩ <;> simp [processStoppedTranscript, h]

/-- Witness for `stop_process_spec`: a whitespace-only transcript is a
no-op, and a three-character transcript with failing proofread yields
itself as content and topic with no ellipsis. -/
theorem stop_process_spec_witness :
    processStoppedTranscript { idleState [] with fullTranscript := "  " }
      Outcome.failure "1" 1 = { idleState [] with fullTranscript := "  " } ∧
    ((processStoppedTranscript { idleState [] with fullTranscript := "abc" }
        Outcome.failure "1" 1).editingRecord.bind (fun d => d.topic)) = some "abc" := by
  constructor
  · exact (stop_process_spec { idleState [] with fullTranscript := "  " }
      Outcome.failure "1" 1).1 (by decide)
  · have h := (stop_process_spec { idleState [] with fullTranscript := "abc" }
      Outcome.failure "1" 1).2 (by decide)
    rw [h.2.1]
    decide

/-- C6: a failing proofread call returns the original text unmodified, so
the draft created from a dictation session whose proofread call failed has
content exactly equal to the raw dictated transcript. -/
theorem proofread_failure_preserves_input (text : String) (s : AppState)
    (nowId : String) (nowTs : Nat) :
    proofreadText text Outcome.failure = text ∧
    (jsTrim s.fullTranscript ≠ "" →
      ((processStoppedTranscript s Outcome.failure nowId nowTs).editingRecord.bind
        (fun d => d.content)) = some s.fullTranscript) := by
  constructor
  · rfl
  · intro h
    simp [processStoppedTranscript, h, proofreadText]

/-- Witness for `proofread_failure_preserves_input`: the spec scenario's
dictated sentence survives a failed proofread verbatim. -/
theorem proofread_failure_preserves_input_witness :
    proofreadText "去超市买了苹果和牛奶" Outcome.failure = "去超市买了苹果和牛奶" ∧
    ((processStoppedTranscript { idleState [] with fullTranscript := "去超市买了苹果和牛奶" }
        Outcome.failure "9" 9).editingRecord.bind (fun d => d.content)) =
      some "去超市买了苹果和牛奶" := by
  exact ⟨(proofread_failure_preserves_input "去超市买了苹果和牛奶"
      { idleState [] with fullTranscript := "去超市买了苹果和牛奶" } "9" 9).1,
    (proofread_failure_preserves_input "去超市买了苹果和牛奶"
      { idleState [] with fullTranscript := "去超市买了苹果和牛奶" } "9" 9).2 (by decide)⟩

/-- C7: with 5 keywords already on the draft, adding a 6th new keyword via
the suggestion chip toggle or the custom-keyword input is rejected with
the limit alert and the state is left unchanged; and neither operation
ever creates a duplicate keyword entry. -/
theorem keyword_cap_enforced (s : AppState) (d : DraftRecord) (kw : String)
    (hd : s.editingRecord = some d) :
    ((d.keywords.getD []).length = 5 → (d.keywords.getD []).contains kw = false →
      toggleKeyword s kw = (s, true)) ∧
    ((d.keywords.getD []).length = 5 → jsTrim s.keywordInput = kw → kw ≠ "" →
      (d.keywords.getD []).contains kw = false →
      handleAddKeyword s = (s, true)) ∧
    ((d.keywords.getD []).Nodup →
      ((((toggleKeyword s kw).1.editingRecord.bind (fun x => x.keywords)).getD []).Nodup)) ∧
    ((d.keywords.getD []).Nodup →
      ((((handleAddKeyword s).1.editingRecord.bind (fun x => x.keywords)).getD []).Nodup)) := by
  refine ⟨?_, ?_, ?_, ?_⟩
  · intro hlen hnc
    have hmem : kw ∉ d.keywords.getD [] := by simpa using hnc
    simp [toggleKeyword, hd, hmem, hlen]
  · intro hlen htrim hne hnc
    have hblank : ¬ (jsTrim s.keywordInput = "") := by rw [htrim]; exact hne
    have hnc' : (d.keywords.getD []).contains (jsTrim s.keywordInput) = false := by
      rw [htrim]; exact hnc
    have hmem : jsTrim s.keywordInput ∉ d.keywords.getD [] := by simpa using hnc'
    simp [handleAddKeyword, hd, hblank, hmem, hlen]
  · intro hnd
    by_cases hc : (d.keywords.getD []).contains kw
    · have hmem : kw ∈ d.keywords.getD [] := by simpa using hc
      simp only [toggleKeyword, hd, hc, if_true]
      simpa using hnd.filter _
    · have hmem : kw ∉ d.keywords.getD [] := by simpa using hc
      by_cases hlen : 5 ≤ (d.keywords.getD []).length
      · simp [toggleKeyword, hd, hmem, hlen, hnd]
      · simp [toggleKeyword, hd, hmem, hlen, List.nodup_append, hnd]
  · intro hnd
    by_cases hblank : jsTrim s.keywordInput = ""
    · simp [handleAddKeyword, hd, hblank, hnd]
    · by_cases hmem : jsTrim s.keywordInput ∈ d.keywords.getD []
      · simp [handleAddKeyword, hd, hblank, hmem, hnd]
      · by_cases hlen : 5 ≤ (d.keywords.getD []).length
        · simp [handleAddKeyword, hd, hblank, hmem, hlen, hnd]
        · simp [handleAddKeyword, hd, hblank, hmem, hlen, List.nodup_append, hnd]

/-- Witness for `keyword_cap_enforced`: a five-keyword draft rejects a 6th
keyword through both entry points with the state untouched. -/
theorem keyword_cap_enforced_witness :
    toggleKeyword
      { idleState [] with
        editingRecord := some { keywords := some ["一", "二", "三", "四", "五"] }
        keywordInput := "六" } "六" =
      ({ idleState [] with
        editingRecord := some { keywords := some ["一", "二", "三", "四", "五"] }
        keywordInput := "六" }, true) ∧
    handleAddKeyword
      { idleState [] with
        editingRecord := some { keywords := some ["一", "二", "三", "四", "五"] }
        keywordInput := "六" } =
      ({ idleState [] with
        editingRecord := some { keywords := some ["一", "二", "三", "四", "五"] }
        keywordInput := "六" }, true) := by
  have h := keyword_cap_enforced
    { idleState [] with
      editingRecord := some { keywords := some ["一", "二", "三", "四", "五"] }
      keywordInput := "六" }
    { keywords := some ["一", "二", "三", "四", "五"] } "六" rfl
  exact ⟨h.1 (by decide) (by decide), h.2.1 (by decide) (by decide) (by decide) (by decide)⟩

/-- C9: when the recognizer itself fires `onend` without an explicit user
stop, neither channel returns to Idle: the primary session's registered
`onEnd` has an empty body, and the inline session's `onEnd` tests the
stale captured `isInlineListening` (necessarily `false` at registration),
so the listening flags stay raised and the inline target stays set. -/
theorem abrupt_end_leaves_session_active :
    ((startListening (idleState [])).isListening = true ∧
      primaryOnEnd (startListening (idleState [])) = startListening (idleState []) ∧
      (primaryOnEnd (startListening (idleState []))).isListening = true) ∧
    ((handleInlineVoiceStart { idleState [] with view := AppView.EDIT_RECORD }
        InlineTarget.CHAT_INPUT).1.isInlineListening = true ∧
      (handleInlineVoiceStart { idleState [] with view := AppView.EDIT_RECORD }
        InlineTarget.CHAT_INPUT).2 = false ∧
      inlineOnEnd
        (handleInlineVoiceStart { idleState [] with view := AppView.EDIT_RECORD }
          InlineTarget.CHAT_INPUT).2
        (handleInlineVoiceStart { idleState [] with view := AppView.EDIT_RECORD }
          InlineTarget.CHAT_INPUT).1 =
        (handleInlineVoiceStart { idleState [] with view := AppView.EDIT_RECORD }
          InlineTarget.CHAT_INPUT).1 ∧
      (inlineOnEnd
        (handleInlineVoiceStart { idleState [] with view := AppView.EDIT_RECORD }
          InlineTarget.CHAT_INPUT).2
        (handleInlineVoiceStart { idleState [] with view := AppView.EDIT_RECORD }
          InlineTarget.CHAT_INPUT).1).isInlineListening = true ∧
      (inlineOnEnd
        (handleInlineVoiceStart { idleState [] with view := AppView.EDIT_RECORD }
          InlineTarget.CHAT_INPUT).2
        (handleInlineVoiceStart { idleState [] with view := AppView.EDIT_RECORD }
          InlineTarget.CHAT_INPUT).1).inlineTarget = some InlineTarget.CHAT_INPUT) := by
  refine ⟨⟨by decide, by decide, by decide⟩, by decide, by decide, by decide, by decide, by decide⟩

/-- C10 counterexample: leaving the edit view through the back control
without pressing Save does not leave the persisted record list unchanged —
the draft is committed and written to storage. -/
theorem back_navigation_commits_draft :
    (handleBackFromEdit
      { idleState [] with
        view := AppView.EDIT_RECORD
        editingRecord := some { content := some "x" } } "1" 2).records ≠ [] ∧
    (handleBackFromEdit
      { idleState [] with
        view := AppView.EDIT_RECORD
        editingRecord := some { content := some "x" } } "1" 2).storage ≠
      saveRecordsToStorage [] := by
  refine ⟨by decide, by decide⟩

/-- C10 (amended): every draft is consumed by Save or by the back control
— which invokes the very same save — or discarded by Delete; leaving the
edit view via back finalizes and commits the draft to the store, writes
the whole list to storage, clears the draft and returns to the home view. -/
theorem back_navigation_saves (s : AppState) (d : DraftRecord)
    (nowId : String) (nowTs : Nat) (hd : s.editingRecord = some d) :
    handleBackFromEdit s nowId nowTs = saveCurrentRecord s nowId nowTs ∧
    (handleBackFromEdit s nowId nowTs).records =
      commit (finalize d s.chatMessages nowId nowTs) s.records ∧
    (handleBackFromEdit s nowId nowTs).storage =
      saveRecordsToStorage (commit (finalize d s.chatMessages nowId nowTs) s.records) ∧
    (handleBackFromEdit s nowId nowTs).editingRecord = none ∧
    (handleBackFromEdit s nowId nowTs).view = AppView.HOME := by
  refine ⟨rfl, ?_, ?_, ?_, ?_⟩ <;> simp [handleBackFromEdit, saveCurrentRecord, hd]

/-- Witness for `back_navigation_saves`: backing out of a fresh one-field
draft lands the finalized record in the store. -/
theorem back_navigation_saves_witness :
    (handleBackFromEdit
      { idleState [] with
        view := AppView.EDIT_RECORD
        editingRecord := some { content := some "x" } } "1" 2).records =
      commit (finalize { content := some "x" } [] "1" 2) [] ∧
    (handleBackFromEdit
      { idleState [] with
        view := AppView.EDIT_RECORD
        editingRecord := some { content := some "x" } } "1" 2).view = AppView.HOME := by
  have h := back_navigation_saves
    { idleState [] with
      view := AppView.EDIT_RECORD
      editingRecord := some { content := some "x" } }
    { content := some "x" } "1" 2 rfl
  exact ⟨h.2.1, h.2.2.2.2⟩

end MyNote
